import Mathlib

/-!
Shallow embedding of the nexus WhatsApp AI bot orchestration layer:
the in-memory conversation store (`ConversationManager` together with the
`ai-utils` helpers), the response normalizers, the tool selector, the
connection-close handler of `WhatsAppBot`, the two HTTP send routes and the
command-parsing utilities.  JavaScript `Map`s are modelled as association
lists, `Date` timestamps as natural-number milliseconds, thrown exceptions
as `Except`, and `undefined`/falsy fields as `Option` values with an
explicit truthiness test.
-/

namespace Nexus

/-- Truthiness of an optional JS string: `undefined`/absent and `""` are falsy. -/
def truthy : Option String → Bool
  | none => false
  | some s => s ≠ ""

/-- Message roles of `ModelMessage` from types.ts (`user | assistant | system`). -/
inductive Role
  | user
  | assistant
  | system
deriving DecidableEq

/-- One stored turn; content collapsed to its text. -/
structure Msg where
  role : Role
  content : String
deriving DecidableEq

/-- `ConversationContext` from types.ts: chatId, ordered messages, lastActivity. -/
structure ConversationContext where
  chatId : String
  messages : List Msg
  lastActivity : Nat
deriving DecidableEq

/-- The `Map<string, ConversationContext>` held by `ConversationManager`. -/
abbrev Store := List (String × ConversationContext)

/-- `Map.get`: first entry with the given key. -/
def storeGet (s : Store) (id : String) : Option ConversationContext :=
  match s with
  | [] => none
  | (k, c) :: rest => if k = id then some c else storeGet rest id

/-- `Map.set`: replace in place, or append a fresh key at the end. -/
def storeSet (s : Store) (id : String) (c : ConversationContext) : Store :=
  match s with
  | [] => [(id, c)]
  | (k, c') :: rest =>
      if k = id then (id, c) :: rest else (k, c') :: storeSet rest id c

/-- Keys of the store, in iteration order. -/
def storeKeys (s : Store) : List String := s.map Prod.fst

/-- A real JS `Map` never holds a key twice. -/
abbrev StoreNodupKeys (s : Store) : Prop := (storeKeys s).Nodup

/-- `MAX_HISTORY_AGE` from conversation-manager.ts: 24 h in milliseconds. -/
def MAX_HISTORY_AGE : Nat := 24 * 60 * 60 * 1000

/-- `now - context.lastActivity.getTime() > maxAge` (signed, as in JS). -/
def expired (now maxAge : Nat) (c : ConversationContext) : Bool :=
  decide ((now : Int) - (c.lastActivity : Int) > (maxAge : Int))

/-- `cleanupExpiredConversations` from ai-utils.ts: drop every expired entry. -/
def cleanupExpiredConversations (hist : Store) (maxAge now : Nat) : Store :=
  hist.filter (fun kv => !expired now maxAge kv.2)

/-- JS `arr.slice(-k)`: the last `k` elements, except that `slice(-0)` is the
whole array. -/
def jsSliceLast (l : List Msg) (k : Nat) : List Msg :=
  if k = 0 then l else l.drop (l.length - k)

/-- `limitConversationMessages` from ai-utils.ts: over `2×maxMessages`, keep
the system messages plus the last `2×maxMessages` entries. -/
def limitConversationMessages (messages : List Msg) (maxMessages : Nat) : List Msg :=
  if messages.length > maxMessages * 2 then
    let systemMessages := messages.filter (fun m => m.role == Role.system)
    let recentMessages := jsSliceLast messages (maxMessages * 2)
    systemMessages ++ recentMessages
  else messages

/-- `ConversationManager.getConversationContext`: get-or-create the entry,
sweep expired conversations, truncate the (possibly detached) context in
place, and return it together with the updated map.  The truncation is
visible in the map only while the entry is still stored, mirroring the JS
object aliasing. -/
def getConversationContext (hist : Store) (chatId : String) (maxMessages now : Nat) :
    ConversationContext × Store :=
  let found := storeGet hist chatId
  let context : ConversationContext :=
    match found with
    | some c => c
    | none => ⟨chatId, [], now⟩
  let hist1 :=
    match found with
    | some _ => hist
    | none => storeSet hist chatId context
  let hist2 := cleanupExpiredConversations hist1 MAX_HISTORY_AGE now
  let context' : ConversationContext :=
    { context with messages := limitConversationMessages context.messages maxMessages }
  let hist3 :=
    if (storeGet hist2 chatId).isSome then storeSet hist2 chatId context' else hist2
  (context', hist3)

/-- `ConversationManager.addToConversationHistory`: append the user and
assistant turns and refresh `lastActivity`; a no-op on an absent id. -/
def addToConversationHistory (hist : Store) (chatId : String)
    (userMessage assistantMessage : Msg) (now : Nat) : Store :=
  match storeGet hist chatId with
  | some c =>
      storeSet hist chatId
        { c with
          messages := c.messages ++ [userMessage, assistantMessage]
          lastActivity := now }
  | none => hist

/-! ### Raw provider results and the response normalizers -/

/-- A raw source entry as duck-typed by the processors. -/
structure RawSource where
  sourceType : Option String
  id : Option String
  url : Option String
  title : Option String
  filename : Option String
  mediaType : Option String
deriving DecidableEq

/-- A reasoning fragment: either a plain string or an object carrying `text`
(`String(r)` prints an object as "[object Object]"). -/
inductive RawFragment
  | str (s : String)
  | obj (text : Option String)
deriving DecidableEq

/-- `typeof r === 'string' ? r : (r.text || String(r))` from response-processor.ts. -/
def fragText : RawFragment → String
  | RawFragment.str s => s
  | RawFragment.obj t => if truthy t then t.getD "" else "[object Object]"

/-- The `reasoning` field of a raw result: absent, a scalar value, or an
ordered array of fragments. -/
inductive RawReasoning
  | absent
  | scalar (s : String)
  | fragments (l : List RawFragment)
deriving DecidableEq

/-- JSON-object parameters, as an association list. -/
abbrev Params := List (String × String)

/-- A raw tool-call record with the alternative field names the processors probe. -/
structure RawToolCall where
  toolCallId : Option String
  id : Option String
  toolName : Option String
  type : Option String
  args : Option Params
  input : Option Params
  parameters : Option Params
deriving DecidableEq

/-- A raw `generateText` result, restricted to the fields the normalizers read.
`groundingMetadata` is the presence of `providerMetadata.google.groundingMetadata`. -/
structure RawResult where
  text : Option String
  sources : Option (List RawSource)
  reasoning : RawReasoning
  reasoningText : Option String
  toolCalls : Option (List RawToolCall)
  groundingMetadata : Bool
deriving DecidableEq

/-- Canonical source of `AIResponse`. -/
structure Source where
  sourceType : String
  id : Option String
  url : Option String
  title : Option String
  filename : Option String
  mediaType : Option String
deriving DecidableEq

/-- Canonical tool call produced by `ResponseProcessor.processResponse`. -/
structure ToolCall where
  id : Option String
  type : Option String
  parameters : Params
deriving DecidableEq

/-- Canonical `AIResponse` (content, sources, reasoning, toolCalls). -/
structure AIResponse where
  content : String
  sources : List Source
  reasoning : String
  toolCalls : List ToolCall
deriving DecidableEq

/-- JS `a || b` on optional strings: the first truthy value. -/
def jsOrS (a b : Option String) : Option String :=
  if truthy a then a else b

/-- JS `a || b` on optional objects: any present object is truthy. -/
def jsOrP (a b : Option Params) : Option Params :=
  if a.isSome then a else b

/-- `{sourceType: source.sourceType || 'url', ...}` from response-processor.ts. -/
def processSource (s : RawSource) : Source :=
  { sourceType := (jsOrS s.sourceType (some "url")).getD "url"
    id := s.id
    url := s.url
    title := s.title
    filename := s.filename
    mediaType := s.mediaType }

/-- The reasoning normalization of `ResponseProcessor.processResponse`
(response-processor.ts lines 19-26): an array in `reasoning` is joined with
single spaces; otherwise a truthy `reasoningText` is passed through; anything
else yields the empty string. -/
def processReasoning (r : RawReasoning) (reasoningText : Option String) : String :=
  match r with
  | RawReasoning.fragments l => String.intercalate " " (l.map fragText)
  | _ => if truthy reasoningText then reasoningText.getD "" else ""

/-- `{id: tc.toolCallId || tc.id, type: tc.toolName || tc.type,
parameters: tc.args || tc.input || tc.parameters || \x7b\x7d}`. -/
def processToolCall (tc : RawToolCall) : ToolCall :=
  { id := jsOrS tc.toolCallId tc.id
    type := jsOrS tc.toolName tc.type
    parameters := (jsOrP tc.args (jsOrP tc.input tc.parameters)).getD [] }

/-- `ResponseProcessor.processResponse` from src/ai/response-processor.ts. -/
def processResponse (result : RawResult) : AIResponse :=
  { content := (jsOrS result.text (some "")).getD ""
    sources := (result.sources.getD []).map processSource
    reasoning := processReasoning result.reasoning result.reasoningText
    toolCalls := (result.toolCalls.getD []).map processToolCall }

/-- The tool-call inference condition of `generateWithThinking`
(ai-extensions.ts): literally `(result.sources && result.sources.length > 0)
|| (result.providerMetadata?.google?.groundingMetadata && !toolCalls.length)`. -/
def inferCondition (result : RawResult) : Bool :=
  (match result.sources with
   | some l => decide (l.length > 0)
   | none => false)
  || (result.groundingMetadata && (result.toolCalls.getD []).isEmpty)

/-- The synthesized `google-search-inferred` raw record pushed by the variants. -/
def inferredSearchCall : RawToolCall :=
  { toolCallId := some "google-search-inferred"
    id := none
    toolName := some "google_search"
    type := none
    args := some [("query", "search query inferred from sources")]
    input := none
    parameters := none }

/-- The tool-call list assembled by `generateWithThinking` before mapping:
the explicit records, plus the inferred search record when the condition fires. -/
def thinkingToolCalls (result : RawResult) : List RawToolCall :=
  let toolCalls := result.toolCalls.getD []
  if inferCondition result then toolCalls ++ [inferredSearchCall] else toolCalls

/-- Canonical tool call of the thinking variant (`{id, name, parameters}`). -/
structure NamedToolCall where
  id : Option String
  name : Option String
  parameters : Option Params
deriving DecidableEq

/-- The normalized tool-call list returned by `generateWithThinking`:
`toolCalls.map(tc => ({id: tc.toolCallId, name: tc.toolName, parameters: tc.args}))`. -/
def thinkingNormalizedToolCalls (result : RawResult) : List NamedToolCall :=
  (thinkingToolCalls result).map (fun tc => ⟨tc.toolCallId, tc.toolName, tc.args⟩)

/-! ### The orchestrating `generateResponse` call -/

/-- `AIService.generateResponse`, with the provider call abstracted as a
function from the assembled message list to a result or a thrown error.
Returns the caller-visible outcome and the conversation store afterwards. -/
def generateResponse (store : Store) (prompt : String) (chatId : Option String)
    (maxMessages now : Nat)
    (provider : List Msg → Except String RawResult) :
    Except String AIResponse × Store :=
  let userMessage : Msg := ⟨Role.user, prompt⟩
  let fetched : List Msg × Store :=
    match chatId with
    | some id =>
        let r := getConversationContext store id maxMessages now
        (r.1.messages, r.2)
    | none => ([], store)
  let messages := fetched.1 ++ [userMessage]
  match provider messages with
  | Except.error e => (Except.error ("AI service error: " ++ e), fetched.2)
  | Except.ok result =>
      let store2 :=
        match chatId with
        | some id =>
            addToConversationHistory fetched.2 id userMessage
              ⟨Role.assistant, (jsOrS result.text (some "")).getD ""⟩ now
        | none => fetched.2
      (Except.ok (processResponse result), store2)

/-! ### Store operation traces -/

/-- One client-visible store operation of `ConversationManager`. -/
inductive StoreOp
  | getContext (id : String) (maxMessages now : Nat)
  | append (id : String) (userContent assistantContent : String) (now : Nat)

/-- Apply one operation to the store. -/
def applyOp (s : Store) : StoreOp → Store
  | StoreOp.getContext id m now => (getConversationContext s id m now).2
  | StoreOp.append id u a now =>
      addToConversationHistory s id ⟨Role.user, u⟩ ⟨Role.assistant, a⟩ now

/-- Run a sequence of operations from a starting store. -/
def runOps (s : Store) (ops : List StoreOp) : Store := ops.foldl applyOp s

/-- No stored message is a system turn. -/
abbrev noSystemStore (s : Store) : Prop :=
  ∀ kv ∈ s, ∀ m ∈ kv.2.messages, m.role ≠ Role.system

/-! ### Tool selection (`ToolManager.getTools`) -/

/-- One named tool descriptor of tool-manager.ts. -/
structure ToolEntry where
  name : String
  description : String
deriving DecidableEq

/-- `ToolManager.getTools`: one descriptor per true flag, in object-key order;
`undefined` (none) when every flag is false. -/
def getTools (useSearch useUrlContext useCodeExecution : Bool) :
    Option (List ToolEntry) :=
  let tools : List ToolEntry :=
    (if useSearch then [⟨"search", "Search the web for current information"⟩] else [])
    ++ (if useUrlContext then [⟨"getUrlContent", "Fetch and analyze content from a URL"⟩] else [])
    ++ (if useCodeExecution then [⟨"executeCode", "Execute Python code and return the result"⟩] else [])
  if tools.length > 0 then some tools else none

/-! ### The connection-close handler of `WhatsAppBot.connectToWhatsApp` -/

/-- The disconnect status codes the handler distinguishes. -/
inductive DisconnectStatus
  | loggedOut
  | restartRequired
  | connectionLost
  | connectionClosed
  | timedOut
  | other
deriving DecidableEq

/-- The reasons treated as reconnectable in the transient branch. -/
def isTransient : DisconnectStatus → Bool
  | DisconnectStatus.restartRequired => true
  | DisconnectStatus.connectionLost => true
  | DisconnectStatus.connectionClosed => true
  | DisconnectStatus.timedOut => true
  | _ => false

/-- Connection events as seen by the handler: a close with a status code, a
session open, or the firing of a previously scheduled reconnect timer (which
clears the flag and dispatches a fresh connect). -/
inductive WEvent
  | connClose (status : DisconnectStatus)
  | connOpen
  | timerFire
deriving DecidableEq

/-- Handler-visible state: the `isReconnecting` flag, the number of scheduled
reconnect timers not yet fired, and whether the auth store was wiped. -/
structure BotState where
  isReconnecting : Bool
  pending : Nat
  authCleared : Bool
deriving DecidableEq

/-- One step of the `connection.update` close/open handler
(whatsapp-bot.ts lines 198-256): a loggedOut close always wipes auth, sets the
flag and schedules a reconnect; a transient close schedules one only when the
flag is down; any other close is logged and ignored; open resets the flag; a
timer firing clears the flag and dispatches the queued connect. -/
def connectionStep (s : BotState) (e : WEvent) : BotState :=
  match e with
  | WEvent.connClose status =>
      let isLoggedOut := status == DisconnectStatus.loggedOut
      let shouldReconnect := !isLoggedOut && !s.isReconnecting
      if isLoggedOut then
        { s with isReconnecting := true, pending := s.pending + 1, authCleared := true }
      else if shouldReconnect && isTransient status then
        { s with isReconnecting := true, pending := s.pending + 1 }
      else s
  | WEvent.connOpen => { s with isReconnecting := false }
  | WEvent.timerFire =>
      if s.pending = 0 then s
      else { s with isReconnecting := false, pending := s.pending - 1 }

/-- Fold a sequence of connection events. -/
def runEvents (s : BotState) (es : List WEvent) : BotState := es.foldl connectionStep s

/-- Process start: flag down, nothing scheduled, auth intact. -/
def initialBotState : BotState := ⟨false, 0, false⟩

/-! ### The two send routes of `ApiRoutes.setupRoutes` -/

/-- Client-visible outcome of a route: HTTP status, the `success` flag of the
JSON body, and whether a WhatsApp text was actually delivered. -/
structure ApiResult where
  status : Nat
  success : Bool
  delivered : Bool
deriving DecidableEq

/-- `POST /api/message`: 400 on a falsy recipient or message, 503 with
`success:false` when no socket is connected, otherwise send and report 200
(500 if the transport send throws). -/
def apiMessageHandler (sockConnected : Bool) (recipient message : Option String)
    (sendOk : Bool) : ApiResult :=
  if !truthy recipient || !truthy message then ⟨400, false, false⟩
  else if !sockConnected then ⟨503, false, false⟩
  else if sendOk then ⟨200, true, true⟩
  else ⟨500, false, false⟩

/-- `POST /api/ai`: 400 on falsy fields, 500 when the AI call throws; on AI
success the handler sends the reply only `if (sock)` and answers 200 with
`success:true` either way, so a missing socket is silently skipped. -/
def apiAiHandler (sockConnected : Bool) (recipient prompt : Option String)
    (aiResult : Except String String) (sendOk : Bool) : ApiResult :=
  if !truthy recipient || !truthy prompt then ⟨400, false, false⟩
  else
    match aiResult with
    | Except.error _ => ⟨500, false, false⟩
    | Except.ok _ =>
        if sockConnected then
          if sendOk then ⟨200, true, true⟩ else ⟨500, false, false⟩
        else ⟨200, true, false⟩

/-! ### Command parsing (`whatsapp-utils.ts`) -/

/-- JS strings are modelled as character lists here so that the lowercasing,
trimming and prefix operations stay kernel-computable. -/
abbrev JsStr := List Char

/-- `content.toLowerCase()`. -/
def jsToLower (s : JsStr) : JsStr := s.map Char.toLower

/-- `content.trim()`: strip whitespace from both ends. -/
def jsTrim (s : JsStr) : JsStr :=
  ((s.dropWhile Char.isWhitespace).reverse.dropWhile Char.isWhitespace).reverse

/-- `s.startsWith(p)`. -/
def jsStartsWith (s p : JsStr) : Bool := List.isPrefixOf p s

/-- The trigger vocabulary of `shouldTriggerAI`. -/
def aiTriggers : List JsStr :=
  ["/ai".data, "/search".data, "/ask".data, "/help".data, "/code".data, "/think".data]

/-- `shouldTriggerAI`: raw prefix match of the lowercased, trimmed content
against the trigger list. -/
def shouldTriggerAI (content : JsStr) : Bool :=
  let lowerContent := jsTrim (jsToLower content)
  aiTriggers.any (fun t => jsStartsWith lowerContent t)

/-- `content.replace` with an anchored case-insensitive command regex: when
the content starts (case-insensitively) with the command word, drop it and
any whitespace right after it; otherwise leave the content unchanged. -/
def stripCommandWord (content cmd : JsStr) : JsStr :=
  if jsStartsWith (jsToLower content) cmd then
    (content.drop cmd.length).dropWhile Char.isWhitespace
  else content

/-- The record returned by `parseAICommand`. -/
structure ParsedCommand where
  useSearch : Bool
  useUrlContext : Bool
  useCodeExecution : Bool
  useThinking : Bool
  prompt : JsStr
  isHelp : Bool
deriving DecidableEq

/-- `parseAICommand` from whatsapp-utils.ts: first matching prefix wins, the
prompt is the content with the command word and following whitespace removed. -/
def parseAICommand (content : JsStr) : ParsedCommand :=
  let lowerContent := jsTrim (jsToLower content)
  if jsStartsWith lowerContent "/search".data then
    ⟨true, false, false, false, stripCommandWord content "/search".data, false⟩
  else if jsStartsWith lowerContent "/code".data then
    ⟨false, false, true, false, stripCommandWord content "/code".data, false⟩
  else if jsStartsWith lowerContent "/think".data then
    ⟨false, false, false, true, stripCommandWord content "/think".data, false⟩
  else if jsStartsWith lowerContent "/ai".data then
    ⟨false, false, false, false, stripCommandWord content "/ai".data, false⟩
  else if jsStartsWith lowerContent "/ask".data then
    ⟨false, false, false, false, stripCommandWord content "/ask".data, false⟩
  else if jsStartsWith lowerContent "/help".data then
    ⟨false, false, false, false, content, true⟩
  else ⟨false, false, false, false, content, false⟩

/-! ### Association-list lemmas for the store -/

theorem storeGet_storeSet_self (s : Store) (id : String) (c : ConversationContext) :
    storeGet (storeSet s id c) id = some c := by
  induction s with
  | nil => simp [storeSet, storeGet]
  | cons hd tl ih =>
      obtain ⟨k, c'⟩ := hd
      by_cases h : k = id
      · simp [storeSet, storeGet, h]
      · simp [storeSet, storeGet, h, ih]

theorem mem_storeSet {s : Store} {id : String} {c : ConversationContext}
    {p : String × ConversationContext} (hp : p ∈ storeSet s id c) :
    p ∈ s ∨ p = (id, c) := by
  induction s with
  | nil => simpa [storeSet] using hp
  | cons hd tl ih =>
      obtain ⟨k, c'⟩ := hd
      by_cases h : k = id
      · simp only [storeSet, h, if_pos rfl] at hp
        rcases List.mem_cons.mp hp with h1 | h1
        · exact Or.inr h1
        · exact Or.inl (List.mem_cons_of_mem _ h1)
      · simp only [storeSet, if_neg h] at hp
        rcases List.mem_cons.mp hp with h1 | h1
        · exact Or.inl (h1 ▸ List.mem_cons_self _ _)
        · rcases ih h1 with h2 | h2
          · exact Or.inl (List.mem_cons_of_mem _ h2)
          · exact Or.inr h2

theorem storeGet_mem {s : Store} {id : String} {c : ConversationContext}
    (h : storeGet s id = some c) : (id, c) ∈ s := by
  induction s with
  | nil => simp [storeGet] at h
  | cons hd tl ih =>
      obtain ⟨k, c'⟩ := hd
      by_cases hk : k = id
      · simp only [storeGet, if_pos hk] at h
        cases h
        exact hk ▸ List.mem_cons_self _ _
      · simp only [storeGet, if_neg hk] at h
        exact List.mem_cons_of_mem _ (ih h)

theorem storeGet_eq_none_of_not_mem_keys {s : Store} {id : String}
    (h : id ∉ storeKeys s) : storeGet s id = none := by
  induction s with
  | nil => rfl
  | cons hd tl ih =>
      obtain ⟨k, c'⟩ := hd
      simp only [storeKeys, List.map_cons, List.mem_cons] at h
      push_neg at h
      simp only [storeGet]
      rw [if_neg (fun hh => h.1 hh.symm)]
      exact ih h.2

theorem storeGet_filter_of_pred {s : Store} {id : String} {c : ConversationContext}
    {p : String × ConversationContext → Bool}
    (h : storeGet s id = some c) (hp : p (id, c) = true) :
    storeGet (s.filter p) id = some c := by
  induction s with
  | nil => simp [storeGet] at h
  | cons hd tl ih =>
      obtain ⟨k, c'⟩ := hd
      by_cases hk : k = id
      · simp only [storeGet, if_pos hk] at h
        cases h
        subst hk
        simp [List.filter_cons, hp, storeGet]
      · simp only [storeGet, if_neg hk] at h
        by_cases hkeep : p (k, c') = true
        · simpa [List.filter_cons, hkeep, storeGet, hk] using ih h
        · simp [List.filter_cons, hkeep, ih h]

theorem keys_filter_subset (s : Store) (p : String × ConversationContext → Bool) :
    storeKeys (s.filter p) ⊆ storeKeys s := by
  intro x hx
  simp only [storeKeys, List.mem_map] at hx ⊢
  obtain ⟨kv, hkv, hfst⟩ := hx
  exact ⟨kv, List.mem_of_mem_filter hkv, hfst⟩

theorem storeGet_filter_none {s : Store} {id : String} {c : ConversationContext}
    {p : String × ConversationContext → Bool}
    (hnodup : StoreNodupKeys s) (h : storeGet s id = some c) (hp : p (id, c) = false) :
    storeGet (s.filter p) id = none := by
  induction s with
  | nil => simp [storeGet] at h
  | cons hd tl ih =>
      obtain ⟨k, c'⟩ := hd
      have hnd := hnodup
      simp only [StoreNodupKeys, storeKeys, List.map_cons, List.nodup_cons] at hnd
      by_cases hk : k = id
      · simp only [storeGet, if_pos hk] at h
        cases h
        subst hk
        simp only [List.filter_cons, hp]
        simp only [Bool.false_eq_true, if_neg]
        exact storeGet_eq_none_of_not_mem_keys
          (fun hmem => hnd.1 (keys_filter_subset tl p hmem))
      · simp only [storeGet, if_neg hk] at h
        by_cases hkeep : p (k, c') = true
        · simpa [List.filter_cons, hkeep, storeGet, hk] using ih hnd.2 h
        · simp [List.filter_cons, hkeep, ih hnd.2 h]

theorem storeGet_storeSet_ne {s : Store} {id k : String} (c : ConversationContext)
    (h : k ≠ id) : storeGet (storeSet s id c) k = storeGet s k := by
  induction s with
  | nil =>
      simp only [storeSet, storeGet]
      rw [if_neg (fun hh => h hh.symm)]
  | cons hd tl ih =>
      obtain ⟨k', c'⟩ := hd
      by_cases hk' : k' = id
      · subst hk'
        simp only [storeSet, if_pos rfl, storeGet]
        rw [if_neg (fun hh => h hh.symm), if_neg (fun hh => h hh.symm)]
      · simp only [storeSet, if_neg hk', storeGet]
        by_cases hkk : k' = k
        · rw [if_pos hkk, if_pos hkk]
        · rw [if_neg hkk, if_neg hkk]
          exact ih

theorem mem_keys_storeSet {s : Store} {id x : String} {c : ConversationContext}
    (h : x ∈ storeKeys (storeSet s id c)) : x ∈ storeKeys s ∨ x = id := by
  simp only [storeKeys, List.mem_map] at h
  obtain ⟨kv, hkv, hfst⟩ := h
  rcases mem_storeSet hkv with h1 | h1
  · exact Or.inl (by simp only [storeKeys, List.mem_map]; exact ⟨kv, h1, hfst⟩)
  · subst h1
    exact Or.inr hfst.symm

theorem nodup_storeSet {s : Store} {id : String} {c : ConversationContext}
    (h : StoreNodupKeys s) : StoreNodupKeys (storeSet s id c) := by
  induction s with
  | nil => simp [storeSet, StoreNodupKeys, storeKeys]
  | cons hd tl ih =>
      obtain ⟨k, c'⟩ := hd
      simp only [StoreNodupKeys, storeKeys, List.map_cons, List.nodup_cons] at h
      by_cases hk : k = id
      · subst hk
        simp only [storeSet, if_true]
        simp only [StoreNodupKeys, storeKeys, List.map_cons, List.nodup_cons]
        exact h
      · simp only [storeSet, if_neg hk]
        simp only [StoreNodupKeys, storeKeys, List.map_cons, List.nodup_cons]
        refine ⟨?_, ih h.2⟩
        intro hmem
        rcases mem_keys_storeSet hmem with h1 | h1
        · exact h.1 h1
        · exact hk h1

/-! ### Truncation lemmas -/

theorem mem_limitConversationMessages {m : Msg} {msgs : List Msg} {w : Nat}
    (h : m ∈ limitConversationMessages msgs w) : m ∈ msgs := by
  unfold limitConversationMessages at h
  split at h
  · rcases List.mem_append.mp h with h1 | h1
    · exact List.mem_of_mem_filter h1
    · unfold jsSliceLast at h1
      split at h1
      · exact h1
      · exact List.mem_of_mem_drop h1
  · exact h

theorem length_limitConversationMessages {msgs : List Msg} {w : Nat}
    (h : ∀ m ∈ msgs, m.role ≠ Role.system) (hw : 1 ≤ w) :
    (limitConversationMessages msgs w).length ≤ 2 * w := by
  unfold limitConversationMessages
  split
  · next hlen =>
      have hfilter : msgs.filter (fun m => m.role == Role.system) = [] := by
        rw [List.filter_eq_nil_iff]
        intro a ha
        simpa using h a ha
      rw [hfilter]
      simp only [List.nil_append]
      unfold jsSliceLast
      rw [if_neg (by omega)]
      have hdrop := List.length_drop (msgs.length - w * 2) msgs
      omega
  · next hlen =>
      push_neg at hlen
      omega

/-! ### Unfolding equations for `getConversationContext` -/

theorem getContext_found {s : Store} {id : String} {w now : Nat} {c : ConversationContext}
    (h : storeGet s id = some c) :
    getConversationContext s id w now =
      (let hist2 := cleanupExpiredConversations s MAX_HISTORY_AGE now
       let context' := { c with messages := limitConversationMessages c.messages w }
       (context',
        if (storeGet hist2 id).isSome then storeSet hist2 id context' else hist2)) := by
  unfold getConversationContext
  rw [h]

theorem getContext_none {s : Store} {id : String} {w now : Nat}
    (h : storeGet s id = none) :
    getConversationContext s id w now =
      (let context : ConversationContext := ⟨id, [], now⟩
       let hist2 := cleanupExpiredConversations (storeSet s id context) MAX_HISTORY_AGE now
       let context' := { context with messages := limitConversationMessages context.messages w }
       (context',
        if (storeGet hist2 id).isSome then storeSet hist2 id context' else hist2)) := by
  unfold getConversationContext
  rw [h]

/-! ### Absence of system turns is preserved by every store operation -/

theorem noSystemStore_filter {s : Store} (p : String × ConversationContext → Bool)
    (h : noSystemStore s) : noSystemStore (s.filter p) :=
  fun kv hkv => h kv (List.mem_of_mem_filter hkv)

theorem noSystemStore_storeSet {s : Store} {id : String} {c : ConversationContext}
    (h : noSystemStore s) (hc : ∀ m ∈ c.messages, m.role ≠ Role.system) :
    noSystemStore (storeSet s id c) := by
  intro kv hkv
  rcases mem_storeSet hkv with h1 | h1
  · exact h kv h1
  · subst h1
    exact hc

theorem noSystem_getContext {s : Store} {id : String} {w now : Nat}
    (h : noSystemStore s) : noSystemStore (getConversationContext s id w now).2 := by
  cases hfound : storeGet s id with
  | some c =>
      rw [getContext_found hfound]
      simp only
      have h2 : noSystemStore (cleanupExpiredConversations s MAX_HISTORY_AGE now) :=
        noSystemStore_filter _ h
      split
      · exact noSystemStore_storeSet h2
          (fun m hm => h (id, c) (storeGet_mem hfound) m (mem_limitConversationMessages hm))
      · exact h2
  | none =>
      rw [getContext_none hfound]
      simp only
      have h1 : noSystemStore (storeSet s id ⟨id, [], now⟩) :=
        noSystemStore_storeSet h (by intro m hm; simp at hm)
      have h2 : noSystemStore
          (cleanupExpiredConversations (storeSet s id ⟨id, [], now⟩) MAX_HISTORY_AGE now) :=
        noSystemStore_filter _ h1
      split
      · refine noSystemStore_storeSet h2 ?_
        intro m hm
        have hm2 : m ∈ limitConversationMessages ([] : List Msg) w := hm
        have := mem_limitConversationMessages hm2
        simp at this
      · exact h2

theorem noSystem_append {s : Store} {id : String} {u a : Msg} {now : Nat}
    (h : noSystemStore s) (hu : u.role ≠ Role.system) (ha : a.role ≠ Role.system) :
    noSystemStore (addToConversationHistory s id u a now) := by
  unfold addToConversationHistory
  cases hfound : storeGet s id with
  | some c =>
      simp only
      refine noSystemStore_storeSet h ?_
      intro m hm
      simp only [List.mem_append, List.mem_cons, List.mem_singleton] at hm
      rcases hm with hm | hm | hm | hm
      · exact h (id, c) (storeGet_mem hfound) m hm
      · exact hm ▸ hu
      · exact hm ▸ ha
      · exact absurd hm (List.not_mem_nil m)
  | none => exact h

theorem noSystem_applyOp {s : Store} (op : StoreOp) (h : noSystemStore s) :
    noSystemStore (applyOp s op) := by
  cases op with
  | getContext id m now => exact noSystem_getContext h
  | append id u a now => exact noSystem_append h (by simp) (by simp)

theorem noSystem_runOps (ops : List StoreOp) : noSystemStore (runOps [] ops) := by
  have hgen : ∀ (ops : List StoreOp) (s : Store),
      noSystemStore s → noSystemStore (runOps s ops) := by
    intro ops
    induction ops with
    | nil => intro s hs; exact hs
    | cons op rest ih =>
        intro s hs
        exact ih (applyOp s op) (noSystem_applyOp op hs)
  exact hgen ops [] (by intro kv hkv; simp at hkv)

/-! ### Claim theorems -/

/-- C8: for every combination of the three capability flags, `getTools`
returns exactly one named descriptor per true flag (its key count equals the
number of true flags, with distinct names, one per capability), and returns
the distinguished no-tools signal (`undefined`, here `none`) exactly when all
flags are false. -/
theorem c8_tool_selection : ∀ s u c : Bool,
    (getTools s u c = none ↔ (s = false ∧ u = false ∧ c = false))
    ∧ ((getTools s u c).getD []).length
        = (if s then 1 else 0) + (if u then 1 else 0) + (if c then 1 else 0)
    ∧ (((getTools s u c).getD []).map ToolEntry.name).Nodup
    ∧ ((("search" : String) ∈ ((getTools s u c).getD []).map ToolEntry.name) ↔ s = true)
    ∧ ((("getUrlContent" : String) ∈ ((getTools s u c).getD []).map ToolEntry.name) ↔ u = true)
    ∧ ((("executeCode" : String) ∈ ((getTools s u c).getD []).map ToolEntry.name) ↔ c = true) := by
  intro s u c
  cases s <;> cases u <;> cases c <;> exact ⟨by decide, by decide, by decide,
    by decide, by decide, by decide⟩

/-- C10: command classification is a raw prefix match with no word-boundary
check: any content whose lowercased trimmed form begins with a trigger word
fires, so "/aircraft" triggers AI handling and `parseAICommand` strips only
the trigger characters plus following whitespace, leaving the prompt
"rcraft" with every flag off. -/
theorem c10_prefix_match :
    shouldTriggerAI "/aircraft".data = true
    ∧ parseAICommand "/aircraft".data
        = ⟨false, false, false, false, "rcraft".data, false⟩
    ∧ (∀ content : JsStr, jsStartsWith (jsTrim (jsToLower content)) "/ai".data = true →
        shouldTriggerAI content = true) := by
  refine ⟨by decide, by decide, ?_⟩
  intro content h
  unfold shouldTriggerAI
  rw [List.any_eq_true]
  exact ⟨"/ai".data, by simp [aiTriggers], h⟩

/-- C10 witness: the universal part of the prefix-match theorem applied at
the concrete content "/aircraft". -/
theorem c10_prefix_match_witness : shouldTriggerAI "/aircraft".data = true :=
  c10_prefix_match.2.2 "/aircraft".data (by decide)

/-- C2: with one non-empty source and one explicit tool-call record present,
the `generateWithThinking` normalization still appends the inferred
`google_search` record, because the implemented condition is
`(sources nonempty) OR (grounding AND no toolCalls)` rather than the
documented `(sources OR grounding) AND no toolCalls`: the output carries two
records, the inferred one last. -/
theorem c2_inferred_despite_explicit :
    (thinkingNormalizedToolCalls
        ⟨some "t", some [⟨none, some "s1", some "u", none, none, none⟩],
         RawReasoning.absent, none,
         some [⟨some "id1", none, some "explicit_tool", none, some [("a", "b")], none, none⟩],
         false⟩).map NamedToolCall.name
      = [some "explicit_tool", some "google_search"]
    ∧ inferCondition
        ⟨some "t", some [⟨none, some "s1", some "u", none, none, none⟩],
         RawReasoning.absent, none,
         some [⟨some "id1", none, some "explicit_tool", none, some [("a", "b")], none, none⟩],
         false⟩ = true :=
  ⟨by decide, by decide⟩

/-- C5 counterexample: a raw result whose `reasoning` field holds the scalar
string "chain of thought" (and no `reasoningText`) is normalized to the empty
string, not passed through unchanged. -/
theorem c5_counterexample :
    (processResponse
        ⟨some "t", none, RawReasoning.scalar "chain of thought", none, none, false⟩).reasoning
      = ""
    ∧ "chain of thought" ≠ "" :=
  ⟨by decide, by decide⟩

/-- C5 (amended): `processResponse` joins an ordered fragment sequence with
single spaces in original order; a scalar reasoning string is passed through
unchanged only when it arrives in the dedicated scalar field
(`reasoningText`); a scalar sitting in the `reasoning` field itself is
dropped to the empty string. -/
theorem c5_reasoning_normalization (r : RawResult) :
    (∀ l, r.reasoning = RawReasoning.fragments l →
        (processResponse r).reasoning = String.intercalate " " (l.map fragText))
    ∧ (∀ s, r.reasoning = RawReasoning.absent → r.reasoningText = some s →
        (processResponse r).reasoning = s)
    ∧ (∀ s, r.reasoning = RawReasoning.scalar s → r.reasoningText = none →
        (processResponse r).reasoning = "") := by
  refine ⟨?_, ?_, ?_⟩
  · intro l hl
    simp [processResponse, processReasoning, hl]
  · intro s hr ht
    by_cases hs : s = ""
    · subst hs
      simp [processResponse, processReasoning, hr, ht, truthy]
    · simp [processResponse, processReasoning, hr, ht, truthy, hs]
  · intro s hr ht
    simp [processResponse, processReasoning, hr, ht, truthy]

/-- C5 witness: the fragment-joining part of the reasoning-normalization
theorem evaluated at a concrete two-fragment result. -/
theorem c5_reasoning_normalization_witness :
    (processResponse
        ⟨some "t", none,
         RawReasoning.fragments [RawFragment.str "alpha", RawFragment.obj (some "beta")],
         none, none, false⟩).reasoning
      = String.intercalate " "
          ([RawFragment.str "alpha", RawFragment.obj (some "beta")].map fragText) :=
  (c5_reasoning_normalization _).1 _ rfl

/-- C7 counterexample: a `POST /api/ai` send attempted while no socket is
connected answers 200 with `success:true` and delivers nothing, instead of
reporting a session-unavailable failure. -/
theorem c7_counterexample :
    apiAiHandler false (some "123") (some "hi") (Except.ok "reply") true
      = ⟨200, true, false⟩ := by decide

/-- C7 (amended): while the session is not Online, `POST /api/message` fails
with 503 / `success:false` and delivers nothing, but `POST /api/ai` silently
skips the send: on AI success it reports 200 / `success:true` with no text
delivered. -/
theorem c7_session_unavailable (recipient message : Option String)
    (hr : truthy recipient = true) (hm : truthy message = true) :
    apiMessageHandler false recipient message true = ⟨503, false, false⟩
    ∧ (∀ content sendOk,
        apiAiHandler false recipient message (Except.ok content) sendOk
          = ⟨200, true, false⟩) := by
  constructor
  · simp [apiMessageHandler, hr, hm]
  · intro content sendOk
    simp [apiAiHandler, hr, hm]

/-- C7 witness: the amended route behavior at the concrete recipient "123"
and message "hi". -/
theorem c7_session_unavailable_witness :
    apiMessageHandler false (some "123") (some "hi") true = ⟨503, false, false⟩ :=
  (c7_session_unavailable (some "123") (some "hi") (by decide) (by decide)).1

/-- C6 counterexample: after a transient close has set the reconnect flag, a
loggedOut close still schedules a second reconnect unconditionally, so two
attempts are in flight at once. -/
theorem c6_counterexample :
    runEvents initialBotState
        [WEvent.connClose DisconnectStatus.timedOut,
         WEvent.connClose DisconnectStatus.loggedOut]
      = ⟨true, 2, true⟩
    ∧ ¬(2 ≤ 1) :=
  ⟨by decide, by decide⟩

/-- C6 (amended): a transient close while `reconnecting` is already true is
ignored outright; the flag is cleared only by a session open or by the
scheduled reconnect dispatching; and at most one reconnect attempt is in
flight over any event sequence that contains no loggedOut close and no open
event — a loggedOut close, by contrast, schedules unconditionally and can
create a second in-flight attempt. -/
theorem c6_reconnect_guard :
    (∀ (s : BotState) (status : DisconnectStatus),
        s.isReconnecting = true → isTransient status = true →
        connectionStep s (WEvent.connClose status) = s)
    ∧ (∀ (s : BotState) (e : WEvent),
        s.isReconnecting = true → (connectionStep s e).isReconnecting = false →
        e = WEvent.connOpen ∨ e = WEvent.timerFire)
    ∧ (∀ es : List WEvent,
        (∀ e ∈ es, e ≠ WEvent.connClose DisconnectStatus.loggedOut ∧ e ≠ WEvent.connOpen) →
        (runEvents initialBotState es).pending ≤ 1) := by
  refine ⟨?_, ?_, ?_⟩
  · intro s status h ht
    cases status <;> simp_all [connectionStep, isTransient]
  · intro s e h hstep
    cases e with
    | connClose status =>
        exfalso
        cases status <;> simp_all [connectionStep, isTransient]
    | connOpen => exact Or.inl rfl
    | timerFire => exact Or.inr rfl
  · have hstep : ∀ (s : BotState) (e : WEvent),
        e ≠ WEvent.connClose DisconnectStatus.loggedOut → e ≠ WEvent.connOpen →
        s.pending ≤ 1 → (s.pending = 1 → s.isReconnecting = true) →
        (connectionStep s e).pending ≤ 1
          ∧ ((connectionStep s e).pending = 1 → (connectionStep s e).isReconnecting = true) := by
      intro s e hlog hopen hp hpr
      cases e with
      | connClose status =>
          by_cases hrec : s.isReconnecting <;>
            cases status <;> simp_all [connectionStep, isTransient] <;> omega
      | connOpen => exact absurd rfl hopen
      | timerFire =>
          by_cases h0 : s.pending = 0
          · simp_all [connectionStep]
          · simp_all [connectionStep]
    have hgen : ∀ (es : List WEvent) (s : BotState),
        (∀ e ∈ es, e ≠ WEvent.connClose DisconnectStatus.loggedOut ∧ e ≠ WEvent.connOpen) →
        s.pending ≤ 1 → (s.pending = 1 → s.isReconnecting = true) →
        (runEvents s es).pending ≤ 1 := by
      intro es
      induction es with
      | nil => intro s _ hp _; exact hp
      | cons e rest ih =>
          intro s hes hp hpr
          have he := hes e (List.mem_cons_self _ _)
          have hnext := hstep s e he.1 he.2 hp hpr
          exact ih (connectionStep s e)
            (fun x hx => hes x (List.mem_cons_of_mem _ hx)) hnext.1 hnext.2
    intro es hes
    exact hgen es initialBotState hes (by decide) (by decide)

/-- C6 witness: the no-op and single-flight parts of the reconnect-guard
theorem at a concrete reconnecting state and a concrete loggedOut-free trace. -/
theorem c6_reconnect_guard_witness :
    connectionStep ⟨true, 1, false⟩ (WEvent.connClose DisconnectStatus.timedOut)
      = ⟨true, 1, false⟩
    ∧ (runEvents initialBotState
        [WEvent.connClose DisconnectStatus.timedOut, WEvent.timerFire]).pending ≤ 1 :=
  ⟨c6_reconnect_guard.1 ⟨true, 1, false⟩ DisconnectStatus.timedOut rfl rfl,
   c6_reconnect_guard.2.2 _ (by decide)⟩

/-- C3 counterexample: the `2×maxTurns` bound fails on a state whose message
list contains a system turn (stored count 41 > 40 after `getContext` with
window 20), and also at window 0 (JS `slice(-0)` keeps the whole list, so 2
turns remain after `getContext` with window 0). -/
theorem c3_counterexample :
    ((storeGet (getConversationContext
        [("c", ⟨"c", ⟨Role.system, "s"⟩ :: List.replicate 41 ⟨Role.user, "x"⟩, 0⟩)]
        "c" 20 0).2 "c").map (fun c => c.messages.length) = some 41
      ∧ ¬(41 ≤ 2 * 20))
    ∧ ((storeGet (getConversationContext
        [("c", ⟨"c", [⟨Role.user, "x"⟩, ⟨Role.assistant, "y"⟩], 0⟩)]
        "c" 0 0).2 "c").map (fun c => c.messages.length) = some 2
      ∧ ¬(2 ≤ 2 * 0)) :=
  ⟨⟨by decide, by decide⟩, ⟨by decide, by decide⟩⟩

/-- C3 (amended): every store reachable from empty by `getContext` and
`appendExchange` operations contains no system turns, and on any store free
of system turns, immediately after `getContext(id, w)` with `w ≥ 1` the
stored turn count of that conversation is at most `2w`; with system turns
present, or with `w = 0`, the bound can be exceeded. -/
theorem c3_turn_bound :
    (∀ ops : List StoreOp, noSystemStore (runOps [] ops))
    ∧ (∀ (s : Store) (id : String) (w now : Nat) (c : ConversationContext),
        noSystemStore s → 1 ≤ w →
        storeGet (getConversationContext s id w now).2 id = some c →
        c.messages.length ≤ 2 * w) := by
  constructor
  · exact noSystem_runOps
  · intro s id w now c hns hw hget
    cases hfound : storeGet s id with
    | some c0 =>
        rw [getContext_found hfound] at hget
        simp only at hget
        split at hget
        · rw [storeGet_storeSet_self] at hget
          cases hget
          exact length_limitConversationMessages
            (fun m hm => hns (id, c0) (storeGet_mem hfound) m hm) hw
        · next hnone =>
            rw [Option.not_isSome_iff_eq_none.mp hnone] at hget
            cases hget
    | none =>
        rw [getContext_none hfound] at hget
        simp only at hget
        split at hget
        · rw [storeGet_storeSet_self] at hget
          cases hget
          have hempty : limitConversationMessages ([] : List Msg) w = [] := by
            simp [limitConversationMessages]
          simp only [hempty]
          simp
        · next hnone =>
            rw [Option.not_isSome_iff_eq_none.mp hnone] at hget
            cases hget

/-- C3 witness: the bound applied to a concrete two-turn conversation at
window 1. -/
theorem c3_turn_bound_witness :
    (⟨"c", [⟨Role.user, "a"⟩, ⟨Role.assistant, "b"⟩], 0⟩ : ConversationContext).messages.length
      ≤ 2 * 1 :=
  c3_turn_bound.2 [("c", ⟨"c", [⟨Role.user, "a"⟩, ⟨Role.assistant, "b"⟩], 0⟩)] "c" 1 0
    ⟨"c", [⟨Role.user, "a"⟩, ⟨Role.assistant, "b"⟩], 0⟩ (by decide) (by decide) (by decide)

/-- C4 counterexample: a conversation expired a millisecond past the TTL is
indeed removed from the store by the next `getContext` on its id, but the
context returned by that very call still carries the expired conversation's
old turns. -/
theorem c4_counterexample :
    (getConversationContext
        [("c", ⟨"c", [⟨Role.user, "old"⟩, ⟨Role.assistant, "old2"⟩], 0⟩)]
        "c" 20 86400001).1.messages
      = [⟨Role.user, "old"⟩, ⟨Role.assistant, "old2"⟩]
    ∧ (getConversationContext
        [("c", ⟨"c", [⟨Role.user, "old"⟩, ⟨Role.assistant, "old2"⟩], 0⟩)]
        "c" 20 86400001).2 = [] :=
  ⟨by decide, by decide⟩

/-- C4 (amended): on a well-formed store, a `getContext` call for any
queried id — expired, live or absent — sweeps: afterwards no stored
conversation is expired, and every conversation that was expired before the
call (the queried one included) is removed from the store before the call
returns; but when the queried id is itself expired, the context returned by
that call still carries the expired conversation's old (truncated) turns. -/
theorem c4_sweep (s : Store) (qid : String) (w now : Nat)
    (hnodup : StoreNodupKeys s) :
    (∀ (id2 : String) (c2 : ConversationContext),
        storeGet (getConversationContext s qid w now).2 id2 = some c2 →
        expired now MAX_HISTORY_AGE c2 = false)
    ∧ (∀ (id2 : String) (c2 : ConversationContext),
        storeGet s id2 = some c2 → expired now MAX_HISTORY_AGE c2 = true →
        storeGet (getConversationContext s qid w now).2 id2 = none)
    ∧ (∀ c : ConversationContext,
        storeGet s qid = some c → expired now MAX_HISTORY_AGE c = true →
        (getConversationContext s qid w now).1.messages
          = limitConversationMessages c.messages w) := by
  refine ⟨?_, ?_, ?_⟩
  · intro id2 c2 hget
    cases hfound : storeGet s qid with
    | some c0 =>
        rw [getContext_found hfound] at hget
        simp only at hget
        split at hget
        · next hsome =>
            by_cases hq : id2 = qid
            · subst hq
              rw [storeGet_storeSet_self] at hget
              cases hget
              by_cases hexp : expired now MAX_HISTORY_AGE c0 = true
              · have hgone : storeGet
                    (cleanupExpiredConversations s MAX_HISTORY_AGE now) id2 = none :=
                  storeGet_filter_none hnodup hfound (by simp [hexp])
                rw [hgone] at hsome
                simp at hsome
              · simpa using hexp
            · rw [storeGet_storeSet_ne _ hq] at hget
              have hmem := storeGet_mem hget
              have := (List.mem_filter.mp hmem).2
              simpa using this
        · have hmem := storeGet_mem hget
          have := (List.mem_filter.mp hmem).2
          simpa using this
    | none =>
        rw [getContext_none hfound] at hget
        simp only at hget
        split at hget
        · next hsome =>
            by_cases hq : id2 = qid
            · subst hq
              rw [storeGet_storeSet_self] at hget
              cases hget
              simp only [expired, decide_eq_false_iff_not]
              omega
            · rw [storeGet_storeSet_ne _ hq] at hget
              have hmem := storeGet_mem hget
              have := (List.mem_filter.mp hmem).2
              simpa using this
        · have hmem := storeGet_mem hget
          have := (List.mem_filter.mp hmem).2
          simpa using this
  · intro id2 c2 hst hexp
    cases hfound : storeGet s qid with
    | some c0 =>
        rw [getContext_found hfound]
        simp only
        have h2 : storeGet (cleanupExpiredConversations s MAX_HISTORY_AGE now) id2 = none :=
          storeGet_filter_none hnodup hst (by simp [hexp])
        split
        · next hsome =>
            by_cases hq : id2 = qid
            · subst hq
              rw [h2] at hsome
              simp at hsome
            · rw [storeGet_storeSet_ne _ hq]
              exact h2
        · exact h2
    | none =>
        have hq : id2 ≠ qid := by
          intro h
          rw [h, hfound] at hst
          cases hst
        rw [getContext_none hfound]
        simp only
        have hnodup1 : StoreNodupKeys (storeSet s qid ⟨qid, [], now⟩) :=
          nodup_storeSet hnodup
        have h1 : storeGet (storeSet s qid ⟨qid, [], now⟩) id2 = some c2 := by
          rw [storeGet_storeSet_ne _ hq]
          exact hst
        have h2 : storeGet (cleanupExpiredConversations
            (storeSet s qid ⟨qid, [], now⟩) MAX_HISTORY_AGE now) id2 = none :=
          storeGet_filter_none hnodup1 h1 (by simp [hexp])
        split
        · rw [storeGet_storeSet_ne _ hq]
          exact h2
        · exact h2
  · intro c hfound hexp
    rw [getContext_found hfound]

/-- C4 witness: querying the live id "b" sweeps the expired conversation
stored under the different id "a". -/
theorem c4_sweep_witness :
    storeGet (getConversationContext
        [("a", ⟨"a", [⟨Role.user, "old"⟩], 0⟩), ("b", ⟨"b", [], 86400000⟩)]
        "b" 20 86400001).2 "a" = none :=
  (c4_sweep [("a", ⟨"a", [⟨Role.user, "old"⟩], 0⟩), ("b", ⟨"b", [], 86400000⟩)]
    "b" 20 86400001 (by decide)).2.1 "a" ⟨"a", [⟨Role.user, "old"⟩], 0⟩
    (by decide) (by decide)

/-- C1 counterexample: calling `generateResponse` for an id with no stored
conversation and a throwing provider does wrap the error, but the store for
that id is not unchanged: the context fetch created an empty conversation
for it before the failure. -/
theorem c1_counterexample :
    (generateResponse [] "hi" (some "c") 20 1000 (fun _ => Except.error "boom")).1
      = Except.error "AI service error: boom"
    ∧ storeGet ([] : Store) "c" = none
    ∧ storeGet (generateResponse [] "hi" (some "c") 20 1000
        (fun _ => Except.error "boom")).2 "c" = some ⟨"c", [], 1000⟩ :=
  ⟨rfl, rfl, rfl⟩

/-- C1 (amended): when the provider call throws, the caller receives an
error prefixed "AI service error:" and no exchange is appended — a
pre-existing unexpired conversation keeps its chatId, its lastActivity and
exactly its (possibly truncated) turn list — but the context fetch's side
effects (lazy creation, TTL sweep, truncation) have already happened. -/
theorem c1_no_partial_append (store : Store) (prompt id errmsg : String) (w now : Nat)
    (c : ConversationContext)
    (hfound : storeGet store id = some c)
    (hlive : expired now MAX_HISTORY_AGE c = false) :
    (generateResponse store prompt (some id) w now (fun _ => Except.error errmsg)).1
      = Except.error ("AI service error: " ++ errmsg)
    ∧ storeGet (generateResponse store prompt (some id) w now
        (fun _ => Except.error errmsg)).2 id
      = some { c with messages := limitConversationMessages c.messages w } := by
  have hkeep : storeGet (cleanupExpiredConversations store MAX_HISTORY_AGE now) id = some c :=
    storeGet_filter_of_pred hfound (by simp [hlive])
  constructor
  · rfl
  · show storeGet (getConversationContext store id w now).2 id = _
    rw [getContext_found hfound]
    simp only
    rw [hkeep]
    simp only [Option.isSome_some, if_true]
    exact storeGet_storeSet_self _ _ _

/-- C1 witness: the no-partial-append theorem at a concrete store holding one
live two-turn conversation and a provider throwing "boom". -/
theorem c1_no_partial_append_witness :
    (generateResponse [("c", ⟨"c", [⟨Role.user, "a"⟩, ⟨Role.assistant, "b"⟩], 0⟩)]
        "hi" (some "c") 20 5 (fun _ => Except.error "boom")).1
      = Except.error ("AI service error: " ++ "boom") :=
  (c1_no_partial_append [("c", ⟨"c", [⟨Role.user, "a"⟩, ⟨Role.assistant, "b"⟩], 0⟩)]
    "hi" "c" "boom" 20 5 ⟨"c", [⟨Role.user, "a"⟩, ⟨Role.assistant, "b"⟩], 0⟩
    (by decide) (by decide)).1

/-- C9: a read (`getConversationContext`) of an existing conversation never
refreshes its lastActivity; only `addToConversationHistory` stamps it with
the current time; consequently a conversation whose lastActivity is past the
TTL is deleted by the next access even if it was being read all along. -/
theorem c9_read_never_refreshes (store : Store) (id : String) (w now : Nat)
    (c : ConversationContext)
    (hnodup : StoreNodupKeys store)
    (hfound : storeGet store id = some c) :
    (∀ c2, storeGet (getConversationContext store id w now).2 id = some c2 →
        c2.lastActivity = c.lastActivity)
    ∧ (expired now MAX_HISTORY_AGE c = true →
        storeGet (getConversationContext store id w now).2 id = none)
    ∧ (∀ (u a : String) (now2 : Nat),
        storeGet (addToConversationHistory store id ⟨Role.user, u⟩ ⟨Role.assistant, a⟩ now2) id
          = some { c with
              messages := c.messages ++ [⟨Role.user, u⟩, ⟨Role.assistant, a⟩]
              lastActivity := now2 }) := by
  refine ⟨?_, ?_, ?_⟩
  · intro c2 hget
    rw [getContext_found hfound] at hget
    simp only at hget
    split at hget
    · rw [storeGet_storeSet_self] at hget
      cases hget
      rfl
    · next hnone =>
        rw [Option.not_isSome_iff_eq_none.mp hnone] at hget
        cases hget
  · intro hexp
    have hgone : storeGet (cleanupExpiredConversations store MAX_HISTORY_AGE now) id = none :=
      storeGet_filter_none hnodup hfound (by simp [hexp])
    rw [getContext_found hfound]
    simp only
    rw [hgone]
    simp only [Option.isSome_none, Bool.false_eq_true, if_false]
    exact hgone
  · intro u a now2
    unfold addToConversationHistory
    rw [hfound]
    exact storeGet_storeSet_self _ _ _

/-- C9 witness: a conversation last active at time 0 survives a read
unchanged, and an append at time 42 stamps lastActivity 42. -/
theorem c9_read_never_refreshes_witness :
    storeGet (addToConversationHistory
        [("c", ⟨"c", [⟨Role.user, "a"⟩], 0⟩)] "c" ⟨Role.user, "u"⟩ ⟨Role.assistant, "v"⟩ 42) "c"
      = some ⟨"c", [⟨Role.user, "a"⟩, ⟨Role.user, "u"⟩, ⟨Role.assistant, "v"⟩], 42⟩ :=
  (c9_read_never_refreshes [("c", ⟨"c", [⟨Role.user, "a"⟩], 0⟩)] "c" 20 5
    ⟨"c", [⟨Role.user, "a"⟩], 0⟩ (by decide) (by decide)).2.2 "u" "v" 42

end Nexus
